import Mathlib

/-!
Verification development for the `term3d` software rasterizer
(`src/lib.rs`).

Modelling conventions:

* `f32` values are modelled as exact rationals (`ℚ`).  The only places
  where IEEE-754 special values can arise in the program are the two
  divisions (`200. / z` in the projector and the edge-function ratios in
  `draw_tri`); those are modelled faithfully by the type `FP` below,
  which carries the two infinities and NaN and implements IEEE addition,
  multiplication, comparison and the saturating `as i32` cast.
* The trigonometric intrinsics `f32::sin` / `f32::cos` are transcendental
  and are therefore passed in as explicit `(sin, cos)` rational
  parameters wherever the source calls them; every theorem quantifies
  over those parameters (or fixes them at an angle where the values are
  exact, e.g. `sin 0 = 0`, `cos 0 = 1`).
* The types `IVec2` (a pair of `i32`s) and its method `perp_dot_product`
  come from the crate's `prelude` module, which is not part of the
  sources; they are modelled from the spec (§4.5).
* `Vec::sort_by_key` is a stable ascending sort; it is modelled by
  `List.insertionSort`, which is also stable and ascending, so both
  produce the identical permutation.
-/

namespace Term3D

/-- IEEE-754 value as it can appear in this program: a finite value
(modelled exactly as a rational), one of the two infinities, or NaN. -/
inductive FP where
  | fin : ℚ → FP
  | pinf : FP
  | ninf : FP
  | nan : FP
deriving DecidableEq, Repr

/-- IEEE addition restricted to the cases reachable here. -/
def FP.add : FP → FP → FP
  | .fin a, .fin b => .fin (a + b)
  | .fin _, .pinf => .pinf
  | .fin _, .ninf => .ninf
  | .pinf, .fin _ => .pinf
  | .ninf, .fin _ => .ninf
  | .pinf, .pinf => .pinf
  | .ninf, .ninf => .ninf
  | .pinf, .ninf => .nan
  | .ninf, .pinf => .nan
  | .nan, _ => .nan
  | _, .nan => .nan

/-- IEEE multiplication restricted to the cases reachable here. -/
def FP.mul : FP → FP → FP
  | .fin a, .fin b => .fin (a * b)
  | .fin a, .pinf => if 0 < a then .pinf else if a < 0 then .ninf else .nan
  | .fin a, .ninf => if 0 < a then .ninf else if a < 0 then .pinf else .nan
  | .pinf, .fin a => if 0 < a then .pinf else if a < 0 then .ninf else .nan
  | .ninf, .fin a => if 0 < a then .ninf else if a < 0 then .pinf else .nan
  | .pinf, .pinf => .pinf
  | .pinf, .ninf => .ninf
  | .ninf, .pinf => .ninf
  | .ninf, .ninf => .pinf
  | .nan, _ => .nan
  | _, .nan => .nan

/-- Division of two finite values (the only division shapes in the
program).  A zero divisor is the positive zero produced by exact
subtraction/rotation of finite values, so `a / 0` is `±∞` by the sign of
`a`, and `0 / 0` is NaN. -/
def fdiv (a b : ℚ) : FP :=
  if b = 0 then (if a = 0 then .nan else if 0 < a then .pinf else .ninf)
  else .fin (a / b)

/-- IEEE `>= 0` comparison (false on NaN). -/
def FP.ge0 : FP → Bool
  | .fin a => decide (0 ≤ a)
  | .pinf => true
  | .ninf => false
  | .nan => false

/-- IEEE `<= 1` comparison (false on NaN). -/
def FP.le1 : FP → Bool
  | .fin a => decide (a ≤ 1)
  | .pinf => false
  | .ninf => true
  | .nan => false

/-- Whether an `FP` value is finite. -/
def FP.isFinite : FP → Bool
  | .fin _ => true
  | _ => false

/-- Truncation toward zero, the rounding used by Rust's float-to-int
`as` casts (`Int.tdiv` is truncated division; a rational's denominator
is positive). -/
def ratTrunc (a : ℚ) : ℤ :=
  a.num.tdiv a.den

/-- Rust's saturating `as i32` cast from `f32`: truncate toward zero,
clamp to the `i32` range, NaN goes to 0. -/
def i32cast : FP → ℤ
  | .fin a => max (-(2 ^ 31)) (min (2 ^ 31 - 1) (ratTrunc a))
  | .pinf => 2 ^ 31 - 1
  | .ninf => -(2 ^ 31)
  | .nan => 0

/-- `rotate_2d` from `src/lib.rs`.  The source computes
`(s, c) = (rad.sin(), rad.cos())` and then a linear combination; the
`(sin, cos)` pair `sc` is passed in explicitly here (see the header). -/
def rotate_2d (pos : ℚ × ℚ) (sc : ℚ × ℚ) : ℚ × ℚ :=
  let x := pos.1
  let y := pos.2
  let s := sc.1
  let c := sc.2
  (x * c - y * s, y * c + x * s)

/-- A world-space point; the source uses `(f32, f32, f32)` tuples. -/
structure Vec3 where
  x : ℚ
  y : ℚ
  z : ℚ
deriving DecidableEq, Repr, Inhabited

/-- The key events the engine reacts to (`easycurses::Input` subset). -/
inductive Input where
  | char : Char → Input
  | keyUp
  | keyDown
  | keyLeft
  | keyRight
  | keyResize
  | other
deriving DecidableEq, Repr

/-- `Camera` from `src/lib.rs`: position and `(pitch, yaw)` angles. -/
structure Camera where
  pos : Vec3
  rot : ℚ × ℚ
deriving DecidableEq, Repr

/-- `Camera::update` from `src/lib.rs`.  `sinYaw`/`cosYaw` stand for
`self.rot.1.sin()` / `self.rot.1.cos()` (trig values passed explicitly,
see the header); the speed scale is `s = delta * 10.`. -/
def Camera.update (cam : Camera) (delta : ℚ) (key : Option Input)
    (sinYaw cosYaw : ℚ) : Camera :=
  let s := delta * 10
  match key with
  | some (.char 'q') => { cam with pos := { cam.pos with y := cam.pos.y + s } }
  | some (.char 'e') => { cam with pos := { cam.pos with y := cam.pos.y - s } }
  | some (.char 'w') =>
      let x := s * sinYaw
      let y := s * cosYaw
      { cam with pos := { cam.pos with x := cam.pos.x + x, z := cam.pos.z + y } }
  | some (.char 's') =>
      let x := s * sinYaw
      let y := s * cosYaw
      { cam with pos := { cam.pos with x := cam.pos.x - x, z := cam.pos.z - y } }
  | some (.char 'a') =>
      let x := s * sinYaw
      let y := s * cosYaw
      { cam with pos := { cam.pos with x := cam.pos.x - y, z := cam.pos.z + x } }
  | some (.char 'd') =>
      let x := s * sinYaw
      let y := s * cosYaw
      { cam with pos := { cam.pos with x := cam.pos.x + y, z := cam.pos.z - x } }
  | some .keyUp => { cam with rot := (cam.rot.1 - s, cam.rot.2) }
  | some .keyDown => { cam with rot := (cam.rot.1 + s, cam.rot.2) }
  | some .keyLeft => { cam with rot := (cam.rot.1, cam.rot.2 - s) }
  | some .keyRight => { cam with rot := (cam.rot.1, cam.rot.2 + s) }
  | _ => cam

/-- The eight cube vertices (`verts` in `Term3D::run`). -/
def cubeVerts : List Vec3 :=
  [⟨-1, -1, -1⟩, ⟨1, -1, -1⟩, ⟨1, 1, -1⟩, ⟨-1, 1, -1⟩,
   ⟨-1, -1, 1⟩, ⟨1, -1, 1⟩, ⟨1, 1, 1⟩, ⟨-1, 1, 1⟩]

/-- The six quad faces (`faces` in `Term3D::run`; the source stores the
indices as `f32` and casts them to `usize` when indexing). -/
def cubeFaces : List (List ℕ) :=
  [[0, 1, 2, 3], [4, 5, 6, 7], [0, 1, 5, 4],
   [2, 3, 7, 6], [0, 3, 7, 4], [1, 2, 6, 5]]

/-- One vertex transform from `Term3D::run`: translate by the camera
position, rotate the `(x, z)` pair by yaw, then the `(y, z)` pair by
pitch.  `scYaw`/`scPitch` are the `(sin, cos)` values of
`cam.rot.1` / `cam.rot.0`. -/
def transformVert (camPos : Vec3) (scYaw scPitch : ℚ × ℚ) (v : Vec3) : Vec3 :=
  let x := v.x - camPos.x
  let y := v.y - camPos.y
  let z := v.z - camPos.z
  let xz := rotate_2d (x, z) scYaw
  let yz := rotate_2d (y, xz.2) scPitch
  ⟨xz.1, yz.1, yz.2⟩

/-- The projection of one camera-relative vertex from `Term3D::run`:
`f = 200. / z; x *= f; y *= f;` then the saturating `as i32` casts of
`cx + x` and `cy + y`. -/
def projectVert (cx cy : ℚ) (v : Vec3) : ℤ × ℤ :=
  let f := fdiv 200 v.z
  let px := (FP.fin v.x).mul f
  let py := (FP.fin v.y).mul f
  (i32cast ((FP.fin cx).add px), i32cast ((FP.fin cy).add py))

/-- The per-iteration inputs of the rendering pipeline: display size
`(w, h)` from `get_row_col_count`, the camera position, and the
`(sin, cos)` values of the camera's yaw and pitch angles. -/
structure Frame where
  w : ℤ
  h : ℤ
  camPos : Vec3
  scYaw : ℚ × ℚ
  scPitch : ℚ × ℚ
deriving DecidableEq, Repr

/-- `cx = w as f32 / 2.` -/
def cxF (fr : Frame) : ℚ := (fr.w : ℚ) / 2

/-- `cy = h as f32 / 2.` -/
def cyF (fr : Frame) : ℚ := (fr.h : ℚ) / 2

/-- `vert_list`: the camera-relative positions of the 8 cube vertices. -/
def vertListF (fr : Frame) : List Vec3 :=
  cubeVerts.map (transformVert fr.camPos fr.scYaw fr.scPitch)

/-- `screen_coords`: the projected integer screen coordinates of the 8
cube vertices. -/
def screenCoordsF (fr : Frame) : List (ℤ × ℤ) :=
  (vertListF fr).map (projectVert (cxF fr) (cyF fr))

/-- The source indexes `vert_list[j]` (an `[f32; 3]`) with `k ∈ 0..3`. -/
def coordAt (v : Vec3) : ℕ → ℚ
  | 0 => v.x
  | 1 => v.y
  | 2 => v.z
  | _ => 0

/-- The per-vertex visibility condition from `Term3D::run`:
`vert_list[i][2] > 0. && p.x > 0 && p.x < w && p.y > 0 && p.y < h`. -/
def onScreenVert (fr : Frame) (j : ℕ) : Bool :=
  let v := (vertListF fr).getD j default
  let p := (screenCoordsF fr).getD j default
  decide (0 < v.z) && decide (0 < p.1) && decide (p.1 < fr.w) &&
    decide (0 < p.2) && decide (p.2 < fr.h)

/-- A face is on-screen when some vertex of it passes `onScreenVert`
(the source's early-exiting `for`/`break` loop). -/
def faceOnScreen (fr : Frame) (i : ℕ) : Bool :=
  (cubeFaces.getD i []).any (onScreenVert fr)

/-- The indices of the faces pushed onto `face_list`, in push order. -/
def visibleIdx (fr : Frame) : List ℕ :=
  (List.range cubeFaces.length).filter (faceOnScreen fr)

/-- The ordering key pushed onto `depth`:
`(0..3).map(|k| face.iter().map(|&j| vert_list[j][k]).sum::<f32>().powi(2)).sum::<f32>()`. -/
def depthOf (fr : Frame) (i : ℕ) : ℚ :=
  ((List.range 3).map (fun k =>
    ((cubeFaces.getD i []).map (fun j =>
      coordAt ((vertListF fr).getD j default) k)).sum ^ 2)).sum

/-- The comparison used by `order.sort_by_key(|&k| NotNan::new(depth[k]))`:
ascending by ordering key. -/
def depthLE (fr : Frame) (i j : ℕ) : Prop := depthOf fr i ≤ depthOf fr j

instance (fr : Frame) : DecidableRel (depthLE fr) := fun i j =>
  inferInstanceAs (Decidable (depthOf fr i ≤ depthOf fr j))

instance (fr : Frame) : IsTotal ℕ (depthLE fr) :=
  ⟨fun i j => le_total (depthOf fr i) (depthOf fr j)⟩

instance (fr : Frame) : IsTrans ℕ (depthLE fr) :=
  ⟨fun _ _ _ hij hjk => le_trans hij hjk⟩

/-- The face draw order: `sort_by_key` ascending (a stable sort, modelled
by the stable `insertionSort`) followed by `order.reverse()`. -/
def drawnFaces (fr : Frame) : List ℕ :=
  (List.insertionSort (depthLE fr) (visibleIdx fr)).reverse

/-- Modelled from the spec: `IVec2::perp_dot_product` lives in the
crate's `prelude` module, which is absent from the sources; §4.5 gives
`perpDot((a,b),(c,d)) = a·d − b·c` (the result feeds `f32` division, so
it is an `f32` holding an exact integer value). -/
def perp_dot_product (a b : ℤ × ℤ) : ℚ :=
  ((a.1 * b.2 - a.2 * b.1 : ℤ) : ℚ)

/-- `Term3D::tri_bounding_box`, including its `else if` update
structure. -/
def tri_bounding_box (v1 v2 v3 : ℤ × ℤ) : ℤ × ℤ × ℤ × ℤ :=
  let step := fun (acc : ℤ × ℤ × ℤ × ℤ) (vec : ℤ × ℤ) =>
    let (minX, maxX, minY, maxY) := acc
    let (minX, maxX) :=
      if vec.1 < minX then (vec.1, maxX)
      else if maxX < vec.1 then (minX, vec.1)
      else (minX, maxX)
    let (minY, maxY) :=
      if vec.2 < minY then (vec.2, maxY)
      else if maxY < vec.2 then (minY, vec.2)
      else (minY, maxY)
    (minX, maxX, minY, maxY)
  step (step (v1.1, v1.1, v1.2, v1.2) v2) v3

/-- The inclusive integer range `lo..=hi` (empty when `hi < lo`). -/
def intRange (lo hi : ℤ) : List ℤ :=
  (List.range (hi + 1 - lo).toNat).map (fun k : ℕ => lo + (k : ℤ))

/-- The per-cell classification of `Term3D::draw_tri`:
`s = perpDot(q, vs2) / perpDot(vs1, vs2)`,
`t = perpDot(vs1, q) / perpDot(vs1, vs2)`, filled iff
`s >= 0. && t >= 0. && s + t <= 1.` under IEEE semantics. -/
def insideTriB (v1 vs1 vs2 : ℤ × ℤ) (x y : ℤ) : Bool :=
  let q := (x - v1.1, y - v1.2)
  let s := fdiv (perp_dot_product q vs2) (perp_dot_product vs1 vs2)
  let t := fdiv (perp_dot_product vs1 q) (perp_dot_product vs1 vs2)
  s.ge0 && t.ge0 && (s.add t).le1

/-- The clipped bounding box of `Term3D::draw_tri`:
`(min(emax, max(0, bound)))` on each of the four bounds, with
`(emax_y, emax_x) = get_row_col_count()`. -/
def clipBox (w h : ℤ) (v1 v2 v3 : ℤ × ℤ) : ℤ × ℤ × ℤ × ℤ :=
  let bb := tri_bounding_box v1 v2 v3
  (min w (max 0 bb.1), min w (max 0 bb.2.1),
   min h (max 0 bb.2.2.1), min h (max 0 bb.2.2.2))

/-- `Term3D::draw_tri` as the list of cells it fills, in draw order
(`x` outer, `y` inner): every integer point of the clipped bounding box
that passes `insideTriB`. -/
def draw_tri (w h : ℤ) (v1 v2 v3 : ℤ × ℤ) : List (ℤ × ℤ) :=
  let box := clipBox w h v1 v2 v3
  let vs1 := (v2.1 - v1.1, v2.2 - v1.2)
  let vs2 := (v3.1 - v1.1, v3.2 - v1.2)
  ((intRange box.1 box.2.1).flatMap (fun x =>
    (intRange box.2.2.1 box.2.2.2).map (fun y => (x, y)))).filter
      (fun p => insideTriB v1 vs1 vs2 p.1 p.2)

/-- The inner loop of `Term3D::draw_line_low` (`for x in x0..x1` with
state `(y, d)`); the fuel is the number of remaining iterations. -/
def draw_line_low_go (dx dy yi : ℤ) : ℕ → ℤ → ℤ → ℤ → List (ℤ × ℤ)
  | 0, _, _, _ => []
  | n + 1, x, y, d =>
      (x, y) ::
        (if 0 < d then draw_line_low_go dx dy yi n (x + 1) (y + yi) (d - 2 * dx + 2 * dy)
         else draw_line_low_go dx dy yi n (x + 1) y (d + 2 * dy))

/-- `Term3D::draw_line_low` as the list of cells it writes. -/
def draw_line_low (x0 y0 x1 y1 : ℤ) : List (ℤ × ℤ) :=
  let dx := x1 - x0
  let dy0 := y1 - y0
  let yi : ℤ := if dy0 < 0 then -1 else 1
  let dy := if dy0 < 0 then -dy0 else dy0
  draw_line_low_go dx dy yi (x1 - x0).toNat x0 y0 (2 * dy - dx)

/-- The inner loop of `Term3D::draw_line_high` (`for y in y0..y1`). -/
def draw_line_high_go (dx dy xi : ℤ) : ℕ → ℤ → ℤ → ℤ → List (ℤ × ℤ)
  | 0, _, _, _ => []
  | n + 1, y, x, d =>
      (x, y) ::
        (if 0 < d then draw_line_high_go dx dy xi n (y + 1) (x + xi) (d - 2 * dy + 2 * dx)
         else draw_line_high_go dx dy xi n (y + 1) x (d + 2 * dx))

/-- `Term3D::draw_line_high` as the list of cells it writes. -/
def draw_line_high (x0 y0 x1 y1 : ℤ) : List (ℤ × ℤ) :=
  let dx0 := x1 - x0
  let dy := y1 - y0
  let xi : ℤ := if dx0 < 0 then -1 else 1
  let dx := if dx0 < 0 then -dx0 else dx0
  draw_line_high_go dx dy xi (y1 - y0).toNat y0 x0 (2 * dx - dy)

/-- `Term3D::draw_line`: vertical and horizontal special cases, then the
low/high slope dispatch with endpoint swaps. -/
def draw_line (x0 y0 x1 y1 : ℤ) : List (ℤ × ℤ) :=
  if x0 = x1 then (intRange y0 y1).map (fun y => (x0, y))
  else if y0 = y1 then (intRange x0 x1).map (fun x => (x, y0))
  else if (y1 - y0).natAbs < (x1 - x0).natAbs then
    if x1 < x0 then draw_line_low x1 y1 x0 y0 else draw_line_low x0 y0 x1 y1
  else
    if y1 < y0 then draw_line_high x1 y1 x0 y0 else draw_line_high x0 y0 x1 y1

/-- The observable calls one loop iteration of `Term3D::run` makes, in
program order (drawing of all sorted faces is abstracted into one
`drawFaces` action, the screen-clearing double loop into one
`clearScreen` action). -/
inductive Action where
  | camUpdate
  | resizeScreen
  | gameUpdate
  | clearScreen
  | drawFaces
deriving DecidableEq, Repr

/-- The escape key (unicode code point 27) the loop compares the polled
event to. -/
def escKey : Option Input := some (.char (Char.ofNat 27))

/-- The calls of one non-escape iteration: resize handling or
`Camera::update`, then `game.update`, then clearing, then drawing. -/
def iterBody (k : Option Input) : List Action :=
  (if k = some .keyResize then [.resizeScreen] else [.camUpdate]) ++
    [.gameUpdate, .clearScreen, .drawFaces]

/-- The frame loop of `Term3D::run`, driven by the stream of polled key
events (one poll per iteration; the model's loop ends when the stream is
exhausted): on `escKey` the loop `break`s before any further call. -/
def runTrace : List (Option Input) → List Action
  | [] => []
  | k :: rest => if k = escKey then [] else iterBody k ++ runTrace rest

/-- Membership in the inclusive integer range `lo..=hi`. -/
theorem mem_intRange {lo hi a : ℤ} : a ∈ intRange lo hi ↔ lo ≤ a ∧ a ≤ hi := by
  simp only [intRange, List.mem_map, List.mem_range]
  constructor
  · rintro ⟨k, hk, rfl⟩
    omega
  · intro hla
    exact ⟨(a - lo).toNat, by omega, by omega⟩

/-- The perp-dot of a vector with itself vanishes. -/
theorem perp_dot_product_self (a : ℤ × ℤ) : perp_dot_product a a = 0 := by
  simp [perp_dot_product, mul_comm]

/-- With a nonzero denominator both edge-function divisions are finite
and the IEEE comparisons collapse to the exact rational inequalities. -/
theorem insideTriB_of_ne (v1 vs1 vs2 : ℤ × ℤ) (x y : ℤ)
    (hd : perp_dot_product vs1 vs2 ≠ 0) :
    (insideTriB v1 vs1 vs2 x y = true ↔
      0 ≤ perp_dot_product (x - v1.1, y - v1.2) vs2 / perp_dot_product vs1 vs2 ∧
      0 ≤ perp_dot_product vs1 (x - v1.1, y - v1.2) / perp_dot_product vs1 vs2 ∧
      perp_dot_product (x - v1.1, y - v1.2) vs2 / perp_dot_product vs1 vs2 +
        perp_dot_product vs1 (x - v1.1, y - v1.2) / perp_dot_product vs1 vs2 ≤ 1) := by
  simp [insideTriB, fdiv, hd, FP.ge0, FP.add, FP.le1, and_assoc]

/-- Dividing by an IEEE zero never lets the `draw_tri` fill condition
pass: a NaN ratio fails every comparison, a `-∞` ratio fails `>= 0`, and
two `+∞` ratios make `s + t = +∞` fail `<= 1`. -/
theorem fdiv_zero_cond_false (a b : ℚ) :
    ((fdiv a 0).ge0 && (fdiv b 0).ge0 && ((fdiv a 0).add (fdiv b 0)).le1) = false := by
  rcases lt_trichotomy a 0 with ha | rfl | ha
  · simp [fdiv, ne_of_lt ha, asymm ha, FP.ge0]
  · simp [fdiv, FP.ge0]
  · rcases lt_trichotomy b 0 with hb | rfl | hb
    · simp [fdiv, ne_of_gt ha, ha, ne_of_lt hb, asymm hb, FP.ge0, FP.add, FP.le1]
    · simp [fdiv, ne_of_gt ha, ha, FP.ge0, FP.add, FP.le1]
    · simp [fdiv, ne_of_gt ha, ha, ne_of_gt hb, hb, FP.ge0, FP.add, FP.le1]

/-- With a zero denominator no cell passes the `draw_tri` condition. -/
theorem insideTriB_denom_zero (v1 vs1 vs2 : ℤ × ℤ) (x y : ℤ)
    (hd : perp_dot_product vs1 vs2 = 0) :
    insideTriB v1 vs1 vs2 x y = false := by
  have h : insideTriB v1 vs1 vs2 x y =
      ((fdiv (perp_dot_product (x - v1.1, y - v1.2) vs2) (perp_dot_product vs1 vs2)).ge0 &&
        (fdiv (perp_dot_product vs1 (x - v1.1, y - v1.2)) (perp_dot_product vs1 vs2)).ge0 &&
        ((fdiv (perp_dot_product (x - v1.1, y - v1.2) vs2) (perp_dot_product vs1 vs2)).add
          (fdiv (perp_dot_product vs1 (x - v1.1, y - v1.2)) (perp_dot_product vs1 vs2))).le1) :=
    rfl
  rw [h, hd]
  exact fdiv_zero_cond_false _ _

/-- A cell is in `draw_tri`'s output iff it lies in the clipped bounding
box and passes the per-cell classification. -/
theorem mem_draw_tri (w h : ℤ) (v1 v2 v3 : ℤ × ℤ) (x y : ℤ) :
    ((x, y) ∈ draw_tri w h v1 v2 v3 ↔
      ((clipBox w h v1 v2 v3).1 ≤ x ∧ x ≤ (clipBox w h v1 v2 v3).2.1 ∧
        (clipBox w h v1 v2 v3).2.2.1 ≤ y ∧ y ≤ (clipBox w h v1 v2 v3).2.2.2) ∧
      insideTriB v1 (v2.1 - v1.1, v2.2 - v1.2) (v3.1 - v1.1, v3.2 - v1.2) x y = true) := by
  simp only [draw_tri, List.mem_filter, List.mem_flatMap, List.mem_map, mem_intRange,
    Prod.mk.injEq]
  constructor
  · rintro ⟨⟨x', hx', y', hy', rfl, rfl⟩, hin⟩
    exact ⟨⟨hx'.1, hx'.2, hy'.1, hy'.2⟩, hin⟩
  · rintro ⟨⟨hx1, hx2, hy1, hy2⟩, hin⟩
    exact ⟨⟨x, ⟨hx1, hx2⟩, y, ⟨hy1, hy2⟩, rfl, rfl⟩, hin⟩

/-- C7: with the camera at the origin and pitch = yaw = 0 (so both
rotations have `(sin, cos) = (0, 1)`), the world point `(0, 0, 5)` on an
80×24 display (`cx = 80/2`, `cy = 24/2`) with focal length 200 projects
to the exact centre `(40, 12)`, since `x = 0` and `y = 0` before the
perspective divide. -/
theorem project_center_scenario :
    projectVert ((80 : ℚ) / 2) ((24 : ℚ) / 2)
      (transformVert ⟨0, 0, 0⟩ (0, 1) (0, 1) ⟨0, 0, 5⟩) = (40, 12) := by
  have ht : transformVert ⟨0, 0, 0⟩ (0, 1) (0, 1) ⟨0, 0, 5⟩ = ⟨0, 0, 5⟩ := by
    norm_num [transformVert, rotate_2d]
  rw [ht]
  have hf : fdiv 200 (5 : ℚ) = FP.fin 40 := by
    rw [fdiv, if_neg (by norm_num)]
    norm_num
  norm_num [projectVert, hf, FP.mul, FP.add, i32cast, ratTrunc, min_def, max_def]

/-- C3: the line from `(0, 0)` to `(4, 2)` takes the low-slope branch
with no endpoint swap, and the `y` values are monotonically
non-decreasing over the cells written — but the `for x in x0..x1` loop
excludes `x1`, so cells are written only for `x = 0, 1, 2, 3`, never for
`x = 4`: the claimed inclusive `0..4` coverage (standard Bresenham)
fails on the code. -/
theorem draw_line_scenario_eval :
    draw_line 0 0 4 2 = draw_line_low 0 0 4 2 ∧
    draw_line 0 0 4 2 = [(0, 0), (1, 0), (2, 1), (3, 1)] ∧
    (4, 2) ∉ draw_line 0 0 4 2 := by
  exact ⟨by decide, by decide, by decide⟩

/-- C8: at yaw 0 (so `(sin yaw, cos yaw) = (0, 1)`) the forward key `'w'`
adds exactly the speed constant 10 times the delta time to the camera's
`z` position and leaves `x` unchanged. -/
theorem camera_forward_yaw_zero (cam : Camera) (delta : ℚ) :
    (cam.update delta (some (.char 'w')) 0 1).pos.z = cam.pos.z + 10 * delta ∧
    (cam.update delta (some (.char 'w')) 0 1).pos.x = cam.pos.x := by
  constructor
  · show cam.pos.z + delta * 10 * 1 = cam.pos.z + 10 * delta
    ring
  · show cam.pos.x + delta * 10 * 0 = cam.pos.x
    ring

/-- C5: for a degenerate triangle (collinear vertices, so the
edge-function denominator `perpDot(vs1, vs2)` is zero) `draw_tri` fills
no cells: every division by the zero denominator produces an infinity
or NaN, and under IEEE comparison semantics the fill condition
`s >= 0 && t >= 0 && s + t <= 1` is false for every cell, so nothing
non-finite reaches the display. -/
theorem draw_tri_degenerate_empty (w h : ℤ) (v1 v2 v3 : ℤ × ℤ)
    (hd : perp_dot_product (v2.1 - v1.1, v2.2 - v1.2) (v3.1 - v1.1, v3.2 - v1.2) = 0) :
    draw_tri w h v1 v2 v3 = [] := by
  simp only [draw_tri]
  rw [List.filter_eq_nil_iff]
  intro p _
  simp [insideTriB_denom_zero v1 _ _ p.1 p.2 hd]

/-- Witness for C5: the collinear triangle `(0,0), (1,1), (2,2)` has a
zero denominator and fills nothing. -/
theorem draw_tri_degenerate_empty_witness :
    draw_tri 10 10 (0, 0) (1, 1) (2, 2) = [] :=
  draw_tri_degenerate_empty 10 10 (0, 0) (1, 1) (2, 2) (by decide)

/-- C4: for a non-degenerate triangle, a point of the clipped bounding
box is filled by `draw_tri` iff `s ≥ 0 ∧ t ≥ 0 ∧ s + t ≤ 1`, where `s`
and `t` are the edge-function ratios against `vs1 = v2 − v1` and
`vs2 = v3 − v1`; and each of the three vertices classifies as inside its
own triangle. -/
theorem draw_tri_classification (w h : ℤ) (v1 v2 v3 : ℤ × ℤ) (x y : ℤ)
    (hd : perp_dot_product (v2.1 - v1.1, v2.2 - v1.2) (v3.1 - v1.1, v3.2 - v1.2) ≠ 0)
    (hbox : (clipBox w h v1 v2 v3).1 ≤ x ∧ x ≤ (clipBox w h v1 v2 v3).2.1 ∧
      (clipBox w h v1 v2 v3).2.2.1 ≤ y ∧ y ≤ (clipBox w h v1 v2 v3).2.2.2) :
    ((x, y) ∈ draw_tri w h v1 v2 v3 ↔
      0 ≤ perp_dot_product (x - v1.1, y - v1.2) (v3.1 - v1.1, v3.2 - v1.2) /
          perp_dot_product (v2.1 - v1.1, v2.2 - v1.2) (v3.1 - v1.1, v3.2 - v1.2) ∧
      0 ≤ perp_dot_product (v2.1 - v1.1, v2.2 - v1.2) (x - v1.1, y - v1.2) /
          perp_dot_product (v2.1 - v1.1, v2.2 - v1.2) (v3.1 - v1.1, v3.2 - v1.2) ∧
      perp_dot_product (x - v1.1, y - v1.2) (v3.1 - v1.1, v3.2 - v1.2) /
          perp_dot_product (v2.1 - v1.1, v2.2 - v1.2) (v3.1 - v1.1, v3.2 - v1.2) +
        perp_dot_product (v2.1 - v1.1, v2.2 - v1.2) (x - v1.1, y - v1.2) /
          perp_dot_product (v2.1 - v1.1, v2.2 - v1.2) (v3.1 - v1.1, v3.2 - v1.2) ≤ 1) ∧
    insideTriB v1 (v2.1 - v1.1, v2.2 - v1.2) (v3.1 - v1.1, v3.2 - v1.2) v1.1 v1.2 = true ∧
    insideTriB v1 (v2.1 - v1.1, v2.2 - v1.2) (v3.1 - v1.1, v3.2 - v1.2) v2.1 v2.2 = true ∧
    insideTriB v1 (v2.1 - v1.1, v2.2 - v1.2) (v3.1 - v1.1, v3.2 - v1.2) v3.1 v3.2 = true := by
  refine ⟨?_, ?_, ?_, ?_⟩
  · rw [mem_draw_tri, insideTriB_of_ne v1 _ _ x y hd]
    exact ⟨fun hm => hm.2, fun hc => ⟨hbox, hc⟩⟩
  · apply (insideTriB_of_ne v1 _ _ v1.1 v1.2 hd).mpr
    have h1 : perp_dot_product (v1.1 - v1.1, v1.2 - v1.2) (v3.1 - v1.1, v3.2 - v1.2) = 0 := by
      simp [perp_dot_product]
    have h2 : perp_dot_product (v2.1 - v1.1, v2.2 - v1.2) (v1.1 - v1.1, v1.2 - v1.2) = 0 := by
      simp [perp_dot_product]
    rw [h1, h2, zero_div]
    norm_num
  · apply (insideTriB_of_ne v1 _ _ v2.1 v2.2 hd).mpr
    rw [div_self hd, perp_dot_product_self, zero_div]
    norm_num
  · apply (insideTriB_of_ne v1 _ _ v3.1 v3.2 hd).mpr
    rw [perp_dot_product_self, zero_div, div_self hd]
    norm_num

/-- Witness for C4: for the triangle `(0,0), (4,0), (0,4)` (denominator
16) the interior point `(2, 1)` — with `s = 1/2`, `t = 1/4` — is
filled. -/
theorem draw_tri_classification_witness :
    (2, 1) ∈ draw_tri 10 10 (0, 0) (4, 0) (0, 4) := by
  have h := draw_tri_classification 10 10 (0, 0) (4, 0) (0, 4) 2 1 (by decide) (by decide)
  exact h.1.mpr (by norm_num [perp_dot_product])

/-- C9: once the polled key event is the escape key the loop `break`s:
the whole trace equals exactly the calls of the pre-escape iterations —
independently of any later pending keys, so no cell clearing, no
drawing and no further iteration happens from the escape poll on — and
the escape iteration itself contributes no action at all. -/
theorem escape_ends_loop (pre rest : List (Option Input)) (h : escKey ∉ pre) :
    runTrace (pre ++ escKey :: rest) = pre.flatMap iterBody ∧
    runTrace (escKey :: rest) = [] := by
  refine ⟨?_, by simp [runTrace]⟩
  induction pre with
  | nil => simp [runTrace]
  | cons k ks ih =>
      have hk : ¬(k = escKey) := by
        intro he
        exact h (by rw [he]; exact List.mem_cons_self _ _)
      have hks : escKey ∉ ks := fun hm => h (List.mem_cons_of_mem _ hm)
      simp [runTrace, hk, ih hks]

/-- Witness for C9: two ordinary iterations, then escape, then a
pending key that is never processed. -/
theorem escape_ends_loop_witness :
    runTrace ([some (Input.char 'w'), none] ++ escKey :: [some (Input.char 'a')]) =
      ([some (Input.char 'w'), none] : List (Option Input)).flatMap iterBody :=
  (escape_ends_loop [some (Input.char 'w'), none] [some (Input.char 'a')] (by decide)).1

/-- C10: on the iteration that polls escape the loop exits before
`Camera::update` and before the game hook's `update`: every pre-escape
iteration contributes exactly one `gameUpdate` (and one `camUpdate`
unless it was a resize), and the escape iteration and everything after
it contribute none. -/
theorem escape_skips_updates (pre rest : List (Option Input)) (h : escKey ∉ pre) :
    (runTrace (pre ++ escKey :: rest)).count Action.gameUpdate = pre.length ∧
    (runTrace (pre ++ escKey :: rest)).count Action.camUpdate =
      (pre.filter (fun k => decide (k ≠ some Input.keyResize))).length := by
  induction pre with
  | nil => simp [runTrace]
  | cons k ks ih =>
      have hk : ¬(k = escKey) := by
        intro he
        exact h (by rw [he]; exact List.mem_cons_self _ _)
      have hks : escKey ∉ ks := fun hm => h (List.mem_cons_of_mem _ hm)
      obtain ⟨ih1, ih2⟩ := ih hks
      by_cases hr : k = some Input.keyResize
      · subst hr
        refine ⟨?_, ?_⟩
        · simp [runTrace, hk, iterBody, List.count_append, List.count_cons, ih1]
        · simp [runTrace, hk, iterBody, List.count_append, List.count_cons, ih2]
      · refine ⟨?_, ?_⟩
        · simp [runTrace, hk, hr, iterBody, List.count_append, List.count_cons, ih1]
        · simp [runTrace, hk, hr, iterBody, List.count_append, List.count_cons, ih2]

/-- Witness for C10: one ordinary iteration before escape; exactly one
game-hook update is ever invoked. -/
theorem escape_skips_updates_witness :
    (runTrace (([none] : List (Option Input)) ++ escKey :: [])).count Action.gameUpdate =
      ([none] : List (Option Input)).length :=
  (escape_skips_updates [none] [] (by decide)).1

/-- The saturating cast of `centre + finite·(+∞)` can only be the two
`i32` extremes (from `±∞`) or `0` (from NaN when the coordinate is 0). -/
theorem i32cast_pinf_component (c q : ℚ) :
    i32cast ((FP.fin c).add ((FP.fin q).mul FP.pinf)) = 2 ^ 31 - 1 ∨
    i32cast ((FP.fin c).add ((FP.fin q).mul FP.pinf)) = -(2 ^ 31) ∨
    i32cast ((FP.fin c).add ((FP.fin q).mul FP.pinf)) = 0 := by
  rcases lt_trichotomy q 0 with hq | rfl | hq
  · right; left
    simp [FP.mul, asymm hq, hq, FP.add, i32cast]
  · right; right
    simp [FP.mul, FP.add, i32cast]
  · left
    simp [FP.mul, hq, FP.add, i32cast]

/-- C6 (amended): the projector does not guard `z == 0`: the divide
`200 / z` is non-finite, and the stored screen coordinates are the
saturating casts of non-finite values (`±(2^31)` bounds, or `0` via
NaN); such a vertex merely fails the separate visibility depth test
`z > 0`, it is not excluded at projection time. -/
theorem projector_zero_depth_unguarded (cx cy : ℚ) (v : Vec3) (h : v.z = 0) :
    (fdiv 200 v.z).isFinite = false ∧
    ((projectVert cx cy v).1 = 2 ^ 31 - 1 ∨ (projectVert cx cy v).1 = -(2 ^ 31) ∨
      (projectVert cx cy v).1 = 0) ∧
    ((projectVert cx cy v).2 = 2 ^ 31 - 1 ∨ (projectVert cx cy v).2 = -(2 ^ 31) ∨
      (projectVert cx cy v).2 = 0) ∧
    ¬(0 < v.z) := by
  have hf : fdiv 200 v.z = FP.pinf := by
    rw [h, fdiv, if_pos rfl, if_neg (by norm_num), if_pos (by norm_num)]
  refine ⟨by rw [hf]; rfl, ?_, ?_, by rw [h]; exact lt_irrefl 0⟩
  · have hp : (projectVert cx cy v).1 =
        i32cast ((FP.fin cx).add ((FP.fin v.x).mul (fdiv 200 v.z))) := rfl
    rw [hp, hf]
    exact i32cast_pinf_component cx v.x
  · have hp : (projectVert cx cy v).2 =
        i32cast ((FP.fin cy).add ((FP.fin v.y).mul (fdiv 200 v.z))) := rfl
    rw [hp, hf]
    exact i32cast_pinf_component cy v.y

/-- Witness for C6's amended statement at the concrete vertex
`(1, 1, 0)`. -/
theorem projector_zero_depth_unguarded_witness :
    (projectVert 40 12 ⟨1, 1, 0⟩).1 = 2 ^ 31 - 1 ∨
    (projectVert 40 12 ⟨1, 1, 0⟩).1 = -(2 ^ 31) ∨
    (projectVert 40 12 ⟨1, 1, 0⟩).1 = 0 :=
  (projector_zero_depth_unguarded 40 12 ⟨1, 1, 0⟩ rfl).2.1

/-- Counterexample to C6 as stated: the world point `(1, 1, 0)` seen
from the origin with pitch = yaw = 0 has camera-relative depth 0; the
perspective divide produces `+∞` and the stored screen coordinates are
the saturated garbage pair `(2147483647, 2147483647)` — a non-finite
value is propagated into the projected screen coordinates, it is not
treated as not-on-screen at projection time. -/
theorem projector_zero_depth_counterexample :
    (transformVert ⟨0, 0, 0⟩ (0, 1) (0, 1) ⟨1, 1, 0⟩).z = 0 ∧
    fdiv 200 (transformVert ⟨0, 0, 0⟩ (0, 1) (0, 1) ⟨1, 1, 0⟩).z = FP.pinf ∧
    projectVert 40 12 (transformVert ⟨0, 0, 0⟩ (0, 1) (0, 1) ⟨1, 1, 0⟩) =
      (2147483647, 2147483647) := by
  have ht : transformVert ⟨0, 0, 0⟩ (0, 1) (0, 1) ⟨1, 1, 0⟩ = ⟨1, 1, 0⟩ := by
    norm_num [transformVert, rotate_2d]
  rw [ht]
  have hf : fdiv 200 (0 : ℚ) = FP.pinf := by
    rw [fdiv, if_pos rfl, if_neg (by norm_num), if_pos (by norm_num)]
  refine ⟨rfl, hf, ?_⟩
  norm_num [projectVert, hf, FP.mul, FP.add, i32cast]

/-- C1: a face enters the draw list iff at least one of its 4 projected
vertices has camera-relative depth strictly greater than 0 and integer
screen coordinates strictly inside `[0, w) × [0, h)` (i.e. in the
interior, `0 < p < bound`, matching the code's strict comparisons); in
particular a face whose 4 vertices all fall outside `[0, w) × [0, h)`,
or all have depth `≤ 0`, is excluded. -/
theorem face_visibility_iff (fr : Frame) (i : ℕ) :
    (i ∈ visibleIdx fr ↔
      ∃ j ∈ cubeFaces.getD i [],
        0 < ((vertListF fr).getD j default).z ∧
        0 < ((screenCoordsF fr).getD j default).1 ∧
        ((screenCoordsF fr).getD j default).1 < fr.w ∧
        0 < ((screenCoordsF fr).getD j default).2 ∧
        ((screenCoordsF fr).getD j default).2 < fr.h) ∧
    ((∀ j ∈ cubeFaces.getD i [],
        ¬(0 ≤ ((screenCoordsF fr).getD j default).1 ∧
          ((screenCoordsF fr).getD j default).1 < fr.w ∧
          0 ≤ ((screenCoordsF fr).getD j default).2 ∧
          ((screenCoordsF fr).getD j default).2 < fr.h)) →
      i ∉ visibleIdx fr) ∧
    ((∀ j ∈ cubeFaces.getD i [], ((vertListF fr).getD j default).z ≤ 0) →
      i ∉ visibleIdx fr) := by
  have main : i ∈ visibleIdx fr ↔
      ∃ j ∈ cubeFaces.getD i [],
        0 < ((vertListF fr).getD j default).z ∧
        0 < ((screenCoordsF fr).getD j default).1 ∧
        ((screenCoordsF fr).getD j default).1 < fr.w ∧
        0 < ((screenCoordsF fr).getD j default).2 ∧
        ((screenCoordsF fr).getD j default).2 < fr.h := by
    by_cases hi : i < cubeFaces.length
    · simp [visibleIdx, List.mem_filter, List.mem_range, hi, faceOnScreen,
        List.any_eq_true, onScreenVert, Bool.and_eq_true, decide_eq_true_eq, and_assoc]
    · have hface : cubeFaces[i]? = none :=
        List.getElem?_eq_none (Nat.le_of_not_lt hi)
      have hnot : i ∉ visibleIdx fr := by
        intro hmem
        exact hi (List.mem_range.mp (List.mem_filter.mp hmem).1)
      simp [hnot, List.getD, hface]
  refine ⟨main, fun hall hmem => ?_, fun hall hmem => ?_⟩
  · obtain ⟨j, hj, _, hx1, hx2, hy1, hy2⟩ := main.mp hmem
    exact hall j hj ⟨le_of_lt hx1, hx2, le_of_lt hy1, hy2⟩
  · obtain ⟨j, hj, hz, _⟩ := main.mp hmem
    exact absurd hz (not_lt.mpr (hall j hj))

/-- Witness for C1: with the camera at `(0, 0, 10)` looking straight
ahead, all cube vertices have camera-relative depth below zero and face
0 is excluded from the draw list. -/
theorem face_visibility_iff_witness :
    0 ∉ visibleIdx ⟨80, 24, ⟨0, 0, 10⟩, (0, 1), (0, 1)⟩ := by
  apply (face_visibility_iff ⟨80, 24, ⟨0, 0, 10⟩, (0, 1), (0, 1)⟩ 0).2.2
  intro j hj
  have hj4 : j ∈ [0, 1, 2, 3] := hj
  fin_cases hj4 <;>
    norm_num [vertListF, cubeVerts, transformVert, rotate_2d]

/-- Camera-relative vertex positions for the tie-producing frame:
300×300 display, camera at `(0, 0, -3)`, pitch = yaw = 0. -/
theorem vertListF_tie :
    vertListF ⟨300, 300, ⟨0, 0, -3⟩, (0, 1), (0, 1)⟩ =
      [⟨-1, -1, 2⟩, ⟨1, -1, 2⟩, ⟨1, 1, 2⟩, ⟨-1, 1, 2⟩,
       ⟨-1, -1, 4⟩, ⟨1, -1, 4⟩, ⟨1, 1, 4⟩, ⟨-1, 1, 4⟩] := by
  norm_num [vertListF, cubeVerts, transformVert, rotate_2d]

/-- Projected screen coordinates for the tie-producing frame. -/
theorem screenCoordsF_tie :
    screenCoordsF ⟨300, 300, ⟨0, 0, -3⟩, (0, 1), (0, 1)⟩ =
      [(50, 50), (250, 50), (250, 250), (50, 250),
       (100, 100), (200, 100), (200, 200), (100, 200)] := by
  rw [screenCoordsF, vertListF_tie]
  have h2 : fdiv 200 (2 : ℚ) = FP.fin 100 := by
    rw [fdiv, if_neg (by norm_num)]
    norm_num
  have h4 : fdiv 200 (4 : ℚ) = FP.fin 50 := by
    rw [fdiv, if_neg (by norm_num)]
    norm_num
  norm_num [projectVert, cxF, cyF, h2, h4, FP.mul, FP.add, i32cast, ratTrunc,
    min_def, max_def]

/-- In the tie-producing frame every one of the 6 faces is visible. -/
theorem visibleIdx_tie :
    visibleIdx ⟨300, 300, ⟨0, 0, -3⟩, (0, 1), (0, 1)⟩ = [0, 1, 2, 3, 4, 5] := by
  have hr : List.range cubeFaces.length = [0, 1, 2, 3, 4, 5] := rfl
  rw [visibleIdx, hr]
  norm_num [faceOnScreen, onScreenVert, cubeFaces, vertListF_tie, screenCoordsF_tie,
    List.filter, List.getD_cons_zero, List.getD_cons_succ]

/-- The six ordering keys of the tie-producing frame: the two side-face
pairs tie at 160. -/
theorem depthOf_tie_vals :
    depthOf ⟨300, 300, ⟨0, 0, -3⟩, (0, 1), (0, 1)⟩ 0 = 64 ∧
    depthOf ⟨300, 300, ⟨0, 0, -3⟩, (0, 1), (0, 1)⟩ 1 = 256 ∧
    depthOf ⟨300, 300, ⟨0, 0, -3⟩, (0, 1), (0, 1)⟩ 2 = 160 ∧
    depthOf ⟨300, 300, ⟨0, 0, -3⟩, (0, 1), (0, 1)⟩ 3 = 160 ∧
    depthOf ⟨300, 300, ⟨0, 0, -3⟩, (0, 1), (0, 1)⟩ 4 = 160 ∧
    depthOf ⟨300, 300, ⟨0, 0, -3⟩, (0, 1), (0, 1)⟩ 5 = 160 := by
  refine ⟨?_, ?_, ?_, ?_, ?_, ?_⟩ <;>
    norm_num [depthOf, cubeFaces, vertListF_tie, coordAt, List.range_succ,
      List.getD_cons_zero, List.getD_cons_succ]

/-- The draw order of the tie-producing frame: ascending stable sort of
`[0, 1, 2, 3, 4, 5]` by key, reversed. -/
theorem drawnFaces_tie :
    drawnFaces ⟨300, 300, ⟨0, 0, -3⟩, (0, 1), (0, 1)⟩ = [1, 5, 4, 3, 2, 0] := by
  obtain ⟨h0, h1, h2, h3, h4, h5⟩ := depthOf_tie_vals
  rw [drawnFaces, visibleIdx_tie]
  norm_num [List.insertionSort, List.orderedInsert, depthLE, h0, h1, h2, h3, h4, h5]

/-- C2 (amended): each visible face's ordering key is the sum over the
three axes of the square of the axis-sum over the face's 4 vertices,
and the faces are drawn in non-increasing key order (ascending stable
sort, then reversed, farthest key first) — "strictly" descending fails
only when distinct faces tie on the key. -/
theorem depth_key_formula_and_order (fr : Frame) :
    (∀ i ∈ visibleIdx fr,
      depthOf fr i =
        (((cubeFaces.getD i []).map (fun j => ((vertListF fr).getD j default).x)).sum) ^ 2 +
        (((cubeFaces.getD i []).map (fun j => ((vertListF fr).getD j default).y)).sum) ^ 2 +
        (((cubeFaces.getD i []).map (fun j => ((vertListF fr).getD j default).z)).sum) ^ 2) ∧
    List.Sorted (· ≥ ·) ((drawnFaces fr).map (depthOf fr)) := by
  constructor
  · intro i _
    have h3 : List.range 3 = [0, 1, 2] := rfl
    rw [depthOf, h3]
    simp only [List.map_cons, List.map_nil, List.sum_cons, List.sum_nil, coordAt]
    ring
  · have hs := List.sorted_insertionSort (depthLE fr) (visibleIdx fr)
    have hmap :
        ((List.insertionSort (depthLE fr) (visibleIdx fr)).map (depthOf fr)).Pairwise
          (· ≤ ·) :=
      List.pairwise_map.mpr hs
    rw [drawnFaces, List.map_reverse]
    exact List.pairwise_reverse.mpr hmap

/-- Witness for C2: face 1 is visible in the tie-producing frame and its
key evaluates, through the claimed formula, to 256. -/
theorem depth_key_formula_and_order_witness :
    depthOf ⟨300, 300, ⟨0, 0, -3⟩, (0, 1), (0, 1)⟩ 1 = 256 := by
  have h := (depth_key_formula_and_order ⟨300, 300, ⟨0, 0, -3⟩, (0, 1), (0, 1)⟩).1 1
    (by rw [visibleIdx_tie]; norm_num)
  rw [h]
  norm_num [cubeFaces, vertListF_tie, List.getD_cons_zero, List.getD_cons_succ]

/-- Counterexample to C2 as stated: in the tie-producing frame the drawn
key sequence is `[256, 160, 160, 160, 160, 64]`, which is not strictly
descending (four faces tie at 160). -/
theorem draw_keys_not_strictly_descending :
    (drawnFaces ⟨300, 300, ⟨0, 0, -3⟩, (0, 1), (0, 1)⟩).map
        (depthOf ⟨300, 300, ⟨0, 0, -3⟩, (0, 1), (0, 1)⟩) =
      [256, 160, 160, 160, 160, 64] ∧
    ¬List.Chain' (· > ·)
      ((drawnFaces ⟨300, 300, ⟨0, 0, -3⟩, (0, 1), (0, 1)⟩).map
        (depthOf ⟨300, 300, ⟨0, 0, -3⟩, (0, 1), (0, 1)⟩)) := by
  obtain ⟨h0, h1, h2, h3, h4, h5⟩ := depthOf_tie_vals
  have hmap : (drawnFaces ⟨300, 300, ⟨0, 0, -3⟩, (0, 1), (0, 1)⟩).map
      (depthOf ⟨300, 300, ⟨0, 0, -3⟩, (0, 1), (0, 1)⟩) =
      [256, 160, 160, 160, 160, 64] := by
    rw [drawnFaces_tie]
    simp [h0, h1, h2, h3, h4, h5]
  refine ⟨hmap, ?_⟩
  rw [hmap]
  norm_num [List.chain'_cons]

end Term3D
